import Mathlib

/-!
Verification development for the semantq_storage repository.

The definitions below are a shallow embedding of the repository's
JavaScript sources:
* `src/utils.js` — the MIME category table, category expansion and
  the file validator;
* `src/providers/cloudinary.js` (second half of the file) — the
  `StorageService` upload orchestration and its `_validateFile`;
* `src/lib/ModelFileService.js` — `deleteFiles` and
  `cleanupReplacedFiles`.

Machine integers do not occur (sizes are plain JS numbers used as
naturals), so file sizes are modelled as `Nat`.  Thrown JS errors are
modelled with `Except`.
-/

set_option maxRecDepth 100000

namespace SemantqStorage

/-- Whether `sub` occurs as a contiguous substring of the character
list, modelling the JS `String.prototype.includes`. -/
def hasSubstr (sub : List Char) : List Char → Bool
  | [] => sub.isEmpty
  | c :: rest => sub.isPrefixOf (c :: rest) || hasSubstr sub rest

/-- The characters before the first occurrence of `sub` (the whole list
when `sub` does not occur), modelling `s.split(sub)[0]` of JS for a
non-empty separator. -/
def beforeSubstr (sub : List Char) : List Char → List Char
  | [] => []
  | c :: rest => if sub.isPrefixOf (c :: rest) then [] else c :: beforeSubstr sub rest

/-- JS `s.includes(sub)`. -/
def strIncludes (s sub : String) : Bool := hasSubstr sub.data s.data

/-- JS `s.split(sub)[0]` for a non-empty separator. -/
def strBefore (s sub : String) : String := String.mk (beforeSubstr sub.data s.data)

/-- JS `s.startsWith(p)`. -/
def strStartsWith (s p : String) : Bool := p.data.isPrefixOf s.data

/-- JS `s.endsWith(p)`. -/
def strEndsWith (s p : String) : Bool := p.data.isSuffixOf s.data

/-- The string without its last `n` characters. -/
def strDropRight (s : String) (n : Nat) : String :=
  String.mk (s.data.take (s.data.length - n))

/-- The numeric value of a decimal digit character. -/
def charDigitVal (c : Char) : Option Nat :=
  if 48 ≤ c.toNat ∧ c.toNat ≤ 57 then some (c.toNat - 48) else none

/-- A decimal string as a natural number, `none` when empty or holding a
non-digit. -/
def digitsToNat (l : List Char) : Option Nat :=
  if l.isEmpty then none
  else l.foldl (fun acc c =>
    match acc, charDigitVal c with
    | some n, some d => some (n * 10 + d)
    | _, _ => none) (some 0)

/-- The static MIME category table, `MIME_CATEGORIES` of `src/utils.js`
(lines 2–44), as an association list in source order. -/
def MIME_CATEGORIES : List (String × List String) :=
  [ ("image", ["image/jpeg", "image/png", "image/webp", "image/gif",
               "image/svg+xml", "image/bmp", "image/tiff"]),
    ("audio", ["audio/mpeg", "audio/wav", "audio/ogg", "audio/midi",
               "audio/x-wav", "audio/x-m4a"]),
    ("video", ["video/mp4", "video/webm", "video/ogg", "video/quicktime",
               "video/x-msvideo", "video/x-matroska"]),
    ("document", ["application/pdf", "application/msword",
                  "application/vnd.openxmlformats-officedocument.wordprocessingml.document",
                  "application/rtf", "text/plain"]),
    ("spreadsheet", ["application/vnd.ms-excel",
                     "application/vnd.openxmlformats-officedocument.spreadsheetml.sheet",
                     "application/vnd.oasis.opendocument.spreadsheet",
                     "text/csv"]),
    ("presentation", ["application/vnd.ms-powerpoint",
                      "application/vnd.openxmlformats-officedocument.presentationml.presentation",
                      "application/vnd.oasis.opendocument.presentation"]),
    ("archive", ["application/zip", "application/x-rar-compressed",
                 "application/x-tar", "application/gzip",
                 "application/x-7z-compressed"]),
    ("code", ["text/javascript", "application/javascript", "text/x-python",
              "text/x-java-source", "text/x-c", "text/x-c++", "text/x-php",
              "application/json", "application/xml", "text/html", "text/css"]) ]

/-- Function `getMimeTypesForCategory` of `src/utils.js` (lines 49–51):
`MIME_CATEGORIES[category] || []`. -/
def getMimeTypesForCategory (category : String) : List String :=
  match MIME_CATEGORIES.find? (fun p => p.1 = category) with
  | some p => p.2
  | none => []

/-- JS truthiness of `MIME_CATEGORIES[category]` (a present key yields an
array, which is truthy): the key is present in the table. -/
def isKnownCategory (category : String) : Bool :=
  (MIME_CATEGORIES.find? (fun p => p.1 = category)).isSome

/-- Every MIME type of the table, in the order the source's
`Object.values(MIME_CATEGORIES)` iteration visits them. -/
def allCategoryTypes : List String :=
  (MIME_CATEGORIES.map Prod.snd).flatten

/-- The JS `mimeTypes.add(x)` on the `Set`: append `x` unless already present
(insertion order preserved). -/
def setAdd (s : List String) (x : String) : List String :=
  if x ∈ s then s else s ++ [x]

/-- Adding a whole list of types to the JS `Set`, in list order. -/
def setAddAll (s : List String) (xs : List String) : List String :=
  xs.foldl setAdd s

/-- The types one entry of the category list contributes, following the
classification chain of `expandCategories` in `src/utils.js`
(lines 59–81): the literal `*`, then a known category name, then a
`/*` wildcard (`category.includes('/*')`, with the part before the
first `/*` as the matched stem), and otherwise the entry itself taken
as a literal MIME type. -/
def entryExpansion (e : String) : List String :=
  if e = "*" then allCategoryTypes
  else if isKnownCategory e then getMimeTypesForCategory e
  else if strIncludes e "/*" then
    allCategoryTypes.filter (fun t => strStartsWith t (strBefore e "/*" ++ "/"))
  else [e]

/-- One iteration of the `categories.forEach` loop of
`expandCategories`: add the entry's contribution to the set. -/
def expandCategoriesStep (s : List String) (e : String) : List String :=
  setAddAll s (entryExpansion e)

/-- Function `expandCategories` of `src/utils.js` (lines 56–84): fold the entries
into an initially empty insertion-ordered set and return its elements. -/
def expandCategories (categories : List String) : List String :=
  categories.foldl expandCategoriesStep []

/-- Modelled from the spec: `parseSize` is called by `validateFile`
(`src/utils.js` line 100) but its definition is not under `src/`.
Per the spec (§4.2 step 1) it turns a human-readable size string such
as `"10MB"` into a byte count; the repository elsewhere uses the
1024-based convention (`50 * 1024 * 1024` for 50MB). -/
def parseSize (s : String) : Nat :=
  if strEndsWith s "GB" then (digitsToNat (strDropRight s 2).data).getD 0 * (1024 * 1024 * 1024)
  else if strEndsWith s "MB" then (digitsToNat (strDropRight s 2).data).getD 0 * (1024 * 1024)
  else if strEndsWith s "KB" then (digitsToNat (strDropRight s 2).data).getD 0 * 1024
  else if strEndsWith s "B" then (digitsToNat (strDropRight s 1).data).getD 0
  else (digitsToNat s.data).getD 0

/-- A file descriptor as `validateFile` reads it: the `mimetype` and
`size` fields of the multipart file object. -/
structure FileDesc where
  mimetype : String
  size : Nat

/-- The destructured `constraints` argument of `validateFile`
(`src/utils.js` lines 90–96), with the source's defaults: a missing
`maxSize` is `none`, the four lists default to `[]`. -/
structure Constraints where
  maxSize : Option String
  allowedTypes : List String
  disallowedTypes : List String
  allowedCategories : List String
  disallowedCategories : List String

/-- The errors `validateFile` can throw, one constructor per `throw`
site: size (line 102), disallowed type (line 132), disallowed category
(line 144), not allowed (line 160).  The spec's error taxonomy calls
the first `SizeExceeded`, the middle two `TypeDisallowed`, and the
last `TypeNotAllowed`. -/
inductive ValidErr where
  | sizeExceeded
  | typeDisallowed
  | typeInDisallowedCategory
  | typeNotAllowed
deriving DecidableEq

deriving instance DecidableEq for Except

/-- The size test of `src/utils.js` lines 99–104: with `maxSize` given,
`file.size > parseSize(maxSize)`. -/
def sizeExceeds (file : FileDesc) (c : Constraints) : Bool :=
  match c.maxSize with
  | some ms => decide (parseSize ms < file.size)
  | none => false

/-- The combined allow-list `allowedMimeTypes` of `src/utils.js`
lines 107–113: explicit `allowedTypes` plus, when `allowedCategories`
is non-empty, its expansion. -/
def allowedMimeTypesOf (c : Constraints) : List String :=
  c.allowedTypes ++
    (if 0 < c.allowedCategories.length then expandCategories c.allowedCategories else [])

/-- The per-entry matching rule shared by the disallowed-types and
allowed-types checks (`src/utils.js` lines 122–129 and 150–157):
`*/*` matches everything, `stem/*` matches any MIME type starting
with `stem/`, anything else matches exactly. -/
def mimeMatches (mimetype : String) (t : String) : Bool :=
  if t = "*/*" then true
  else if strEndsWith t "/*" then strStartsWith mimetype (strBefore t "/" ++ "/")
  else mimetype = t

/-- The test `disallowedTypes.some(...)` of `src/utils.js` lines 122–129. -/
def isDisallowedBy (mimetype : String) (disallowedTypes : List String) : Bool :=
  disallowedTypes.any (mimeMatches mimetype)

/-- The test `disallowedCategoryTypes.some(type => file.mimetype === type)` of
`src/utils.js` lines 138–141: exact membership in the expansion. -/
def inDisallowedCategory (mimetype : String) (disallowedCategories : List String) : Bool :=
  (expandCategories disallowedCategories).any (fun t => mimetype = t)

/-- Function `validateFile` of `src/utils.js` (lines 89–165).  The checks run in
source order: size; the no-restriction short-circuit (line 116:
combined allow-list empty **and** explicit `disallowedTypes` empty);
disallowed types; disallowed categories; allowed types.  A thrown
`Error` is an `Except.error`; the source's `return true` is
`Except.ok true`. -/
def validateFile (file : FileDesc) (c : Constraints) : Except ValidErr Bool :=
  if sizeExceeds file c then Except.error ValidErr.sizeExceeded
  else if (allowedMimeTypesOf c).isEmpty && c.disallowedTypes.isEmpty then Except.ok true
  else if decide (0 < c.disallowedTypes.length) &&
          isDisallowedBy file.mimetype c.disallowedTypes then
    Except.error ValidErr.typeDisallowed
  else if decide (0 < c.disallowedCategories.length) &&
          inDisallowedCategory file.mimetype c.disallowedCategories then
    Except.error ValidErr.typeInDisallowedCategory
  else if decide (0 < (allowedMimeTypesOf c).length) &&
          !((allowedMimeTypesOf c).any (mimeMatches file.mimetype)) then
    Except.error ValidErr.typeNotAllowed
  else Except.ok true

/-- First-error sequencing of a list of fallible steps: the semantics of
running the synchronous validations inside `fileArray.map(...)` (an
exception aborts the whole map at the first failing element) and of
`Promise.all` over already-settled promises. -/
def mapME {α β ε : Type} (g : α → Except ε β) : List α → Except ε (List β)
  | [] => Except.ok []
  | x :: xs =>
    match g x with
    | Except.error e => Except.error e
    | Except.ok b =>
      match mapME g xs with
      | Except.error e => Except.error e
      | Except.ok bs => Except.ok (b :: bs)

/-- Method `StorageService._validateFile` of `src/providers/cloudinary.js`
(lines 164–185): the size check against the service-wide
`config.maxFileSize` runs always; the type check runs only when
`options.allowedTypes` is present and non-empty (`?.length > 0`).
Its matcher (lines 172–177) has no `*/*` special case. -/
def StorageService.validateFile (maxFileSize : Nat) (allowedTypes : Option (List String))
    (file : FileDesc) : Except String Bool :=
  if maxFileSize < file.size then Except.error "File too large"
  else
    match allowedTypes with
    | some ts =>
      if decide (0 < ts.length) &&
          !(ts.any (fun t =>
            if strEndsWith t "/*" then strStartsWith file.mimetype (strBefore t "/" ++ "/")
            else file.mimetype = t)) then
        Except.error "Invalid file type"
      else Except.ok true
    | none => Except.ok true

/-- Method `StorageService.upload` of `src/providers/cloudinary.js`
(lines 76–92), for a list of files: first every file is validated
(`_validateFile` throws synchronously inside the `.map`, so a failure
aborts before the upload fan-out), then every file is dispatched to
the provider.  The provider is abstracted as a pure `provUp`; the
second component records which files the provider's `upload` was
invoked for. -/
def StorageService.upload {α : Type} (maxFileSize : Nat) (provUp : FileDesc → α)
    (files : List FileDesc) (allowedTypes : Option (List String)) :
    Except String (List α) × List FileDesc :=
  match mapME (StorageService.validateFile maxFileSize allowedTypes) files with
  | Except.error e => (Except.error e, [])
  | Except.ok _ => (Except.ok (files.map provUp), files)

/-- A value stored under a field of a database record, as the JS code
discriminates it: absent/undefined, a single string, or an array of
strings. -/
inductive FieldValue where
  | absent
  | one (url : String)
  | many (urls : List String)

/-- JS truthiness of a field value (`!urls` / `!existingUrls`):
`undefined` and the empty string are falsy; every array — even an
empty one — is truthy. -/
def truthy : FieldValue → Bool
  | FieldValue.absent => false
  | FieldValue.one u => !(u == "")
  | FieldValue.many _ => true

/-- The JS `Array.isArray(urls) ? urls : [urls]` — the value as a list. -/
def toListOf : FieldValue → List String
  | FieldValue.absent => []
  | FieldValue.one u => [u]
  | FieldValue.many us => us

/-- The URLs `deleteFiles` issues deletes for under one field
(`src/lib/ModelFileService.js` lines 183–188): skip a falsy value,
wrap a single string, and keep only truthy entries
(`urlList.filter(Boolean)`). -/
def fieldUrls (v : FieldValue) : List String :=
  if truthy v then (toListOf v).filter (fun u => !(u == "")) else []

/-- The call `storage.delete(url).catch(... warn ...)`: the rejection is caught
and logged, the resulting promise always resolves.  The payload keeps
the logged message when the underlying delete rejected. -/
def guardedDelete (delOutcome : String → Except String Unit) (u : String) :
    Except String (Option String) :=
  match delOutcome u with
  | Except.ok _ => Except.ok none
  | Except.error e => Except.ok (some e)

/-- Which warning (if any) the guarded delete of one URL logs. -/
def outcomeLog (delOutcome : String → Except String Unit) (u : String) : Option String :=
  match delOutcome u with
  | Except.ok _ => none
  | Except.error e => some e

/-- The URLs the `deleteFiles` loop pushes a delete for, in field order
then URL order. -/
def collectRecordUrls (fields : List String) (record : String → FieldValue) : List String :=
  fields.foldr (fun f acc => fieldUrls (record f) ++ acc) []

/-- Method `ModelFileService.deleteFiles` of `src/lib/ModelFileService.js`
(lines 178–198): one guarded delete per non-empty URL under each
configured field, joined with `Promise.all`.  The provider's `delete`
is abstracted as the outcome oracle `delOutcome`. -/
def ModelFileService.deleteFiles (fields : List String) (record : String → FieldValue)
    (delOutcome : String → Except String Unit) : Except String (List (Option String)) :=
  mapME (guardedDelete delOutcome) (collectRecordUrls fields record)

/-- The loop body of `cleanupReplacedFiles` for one field
(`src/lib/ModelFileService.js` lines 210–221): skip when either side
is falsy, else keep the existing URLs that are truthy and not among
the new URLs (`url && !newList.includes(url)`). -/
def fieldToDelete (existingV newV : FieldValue) : List String :=
  if truthy existingV && truthy newV then
    (toListOf existingV).filter (fun u => !(u == "") && !((toListOf newV).contains u))
  else []

/-- All URLs `cleanupReplacedFiles` deletes, in field order. -/
def cleanupToDelete (fields : List String) (existing newm : String → FieldValue) :
    List String :=
  fields.foldr (fun f acc => fieldToDelete (existing f) (newm f) ++ acc) []

/-- Method `ModelFileService.cleanupReplacedFiles` of
`src/lib/ModelFileService.js` (lines 205–233): guarded deletes of the
replaced URLs, joined with `Promise.all`. -/
def ModelFileService.cleanupReplacedFiles (fields : List String)
    (existing newm : String → FieldValue) (delOutcome : String → Except String Unit) :
    Except String (List (Option String)) :=
  mapME (guardedDelete delOutcome) (cleanupToDelete fields existing newm)

/-- The spec's words for the deletion set of `cleanupReplacedFiles`
(§4.5): "computes `existingUrls - newUrls` (set difference on URL
string, order-preserving)".  Stated as its own definition so the
code-derived `fieldToDelete` can be compared against it. -/
def specSetDiff (es ns : List String) : List String :=
  es.filter (fun u => !(ns.contains u))

/-! ### Lemmas about the insertion-ordered set -/

theorem mem_setAdd {s : List String} {x a : String} :
    a ∈ setAdd s x ↔ a ∈ s ∨ a = x := by
  unfold setAdd
  split
  next hx =>
    constructor
    · exact Or.inl
    · rintro (h | rfl)
      · exact h
      · exact hx
  next hx => simp [List.mem_append]

theorem nodup_setAdd {s : List String} {x : String} (h : s.Nodup) :
    (setAdd s x).Nodup := by
  unfold setAdd
  split
  next hx => exact h
  next hx =>
    refine List.Nodup.append h (List.nodup_singleton x) ?_
    intro a ha hax
    rw [List.mem_singleton] at hax
    subst hax
    exact hx ha

theorem mem_setAddAll : ∀ (xs s : List String) (a : String),
    a ∈ setAddAll s xs ↔ a ∈ s ∨ a ∈ xs := by
  intro xs
  induction xs with
  | nil => intro s a; simp [setAddAll]
  | cons x xs ih =>
    intro s a
    have h1 : setAddAll s (x :: xs) = setAddAll (setAdd s x) xs := rfl
    rw [h1, ih, mem_setAdd]
    simp [List.mem_cons]
    tauto

theorem nodup_setAddAll : ∀ (xs s : List String), s.Nodup → (setAddAll s xs).Nodup := by
  intro xs
  induction xs with
  | nil => intro s h; exact h
  | cons x xs ih =>
    intro s h
    exact ih (setAdd s x) (nodup_setAdd h)

theorem mem_foldl_expand : ∀ (l s : List String) (a : String),
    a ∈ l.foldl expandCategoriesStep s ↔ a ∈ s ∨ ∃ e ∈ l, a ∈ entryExpansion e := by
  intro l
  induction l with
  | nil => intro s a; simp
  | cons e l ih =>
    intro s a
    rw [List.foldl_cons]
    have h1 : expandCategoriesStep s e = setAddAll s (entryExpansion e) := rfl
    rw [ih, h1, mem_setAddAll]
    simp [List.mem_cons]
    tauto

theorem mem_expandCategories {l : List String} {a : String} :
    a ∈ expandCategories l ↔ ∃ e ∈ l, a ∈ entryExpansion e := by
  rw [expandCategories, mem_foldl_expand]
  simp

theorem nodup_expandCategories (l : List String) : (expandCategories l).Nodup := by
  rw [expandCategories]
  have h : ∀ (l s : List String), s.Nodup → (l.foldl expandCategoriesStep s).Nodup := by
    intro l
    induction l with
    | nil => intro s h; exact h
    | cons e l ih =>
      intro s h
      rw [List.foldl_cons]
      exact ih _ (nodup_setAddAll _ _ h)
  exact h l [] List.nodup_nil

/-! ### Lemmas about the category table -/

theorem getMimeTypesForCategory_subset (c : String) :
    ∀ t ∈ getMimeTypesForCategory c, t ∈ allCategoryTypes := by
  intro t ht
  unfold getMimeTypesForCategory at ht
  cases hfind : MIME_CATEGORIES.find? (fun p => p.1 = c) with
  | none => rw [hfind] at ht; simp at ht
  | some p =>
    rw [hfind] at ht
    simp only at ht
    have hp : p ∈ MIME_CATEGORIES := List.mem_of_find?_eq_some hfind
    unfold allCategoryTypes
    rw [List.mem_flatten]
    exact ⟨p.2, List.mem_map_of_mem Prod.snd hp, ht⟩

/-- A category-list entry that only draws from the table: the catch-all,
a known category name, or a `/*` wildcard — i.e. anything but the
literal-MIME-type fallthrough. -/
def tableEntry (e : String) : Bool :=
  (e == "*") || isKnownCategory e || strIncludes e "/*"

theorem entryExpansion_subset {e : String} (h : tableEntry e = true) :
    ∀ t ∈ entryExpansion e, t ∈ allCategoryTypes := by
  intro t ht
  unfold entryExpansion at ht
  by_cases h1 : e = "*"
  · rw [if_pos h1] at ht; exact ht
  · rw [if_neg h1] at ht
    by_cases h2 : isKnownCategory e = true
    · simp only [h2, if_true] at ht
      exact getMimeTypesForCategory_subset e t ht
    · have h3 : strIncludes e "/*" = true := by
        unfold tableEntry at h
        rcases Bool.or_eq_true_iff.mp h with h4 | h4
        · rcases Bool.or_eq_true_iff.mp h4 with h5 | h5
          · exact absurd (by simpa using h5) h1
          · exact absurd h5 h2
        · exact h4
      simp only [Bool.not_eq_true] at h2
      rw [h2] at ht
      simp only [Bool.false_eq_true, if_false, h3, if_true] at ht
      exact List.mem_filter.mp ht |>.1

theorem entryExpansion_star : entryExpansion "*" = allCategoryTypes := rfl

/-! ### Characterizing `validateFile` -/

theorem guard_isDisallowedBy (m : String) (l : List String) :
    (decide (0 < l.length) && isDisallowedBy m l) = isDisallowedBy m l := by
  cases l with
  | nil => rfl
  | cons x xs => simp

theorem guard_inDisallowedCategory (m : String) (l : List String) :
    (decide (0 < l.length) && inDisallowedCategory m l) = inDisallowedCategory m l := by
  cases l with
  | nil => rfl
  | cons x xs => simp

/-- The two redundant `length > 0` guards of the disallow checks
stripped (a `some` over an empty list is `false` anyway). -/
theorem validateFile_eq (file : FileDesc) (c : Constraints) :
    validateFile file c =
      (if sizeExceeds file c then Except.error ValidErr.sizeExceeded
      else if (allowedMimeTypesOf c).isEmpty && c.disallowedTypes.isEmpty then Except.ok true
      else if isDisallowedBy file.mimetype c.disallowedTypes then
        Except.error ValidErr.typeDisallowed
      else if inDisallowedCategory file.mimetype c.disallowedCategories then
        Except.error ValidErr.typeInDisallowedCategory
      else if decide (0 < (allowedMimeTypesOf c).length) &&
              !((allowedMimeTypesOf c).any (mimeMatches file.mimetype)) then
        Except.error ValidErr.typeNotAllowed
      else Except.ok true) := by
  unfold validateFile
  rw [guard_isDisallowedBy, guard_inDisallowedCategory]

theorem validateFile_ok_iff {file : FileDesc} {c : Constraints} {b : Bool} :
    validateFile file c = Except.ok b ↔
      b = true ∧ sizeExceeds file c = false ∧
      ((allowedMimeTypesOf c = [] ∧ c.disallowedTypes = []) ∨
       (isDisallowedBy file.mimetype c.disallowedTypes = false ∧
        inDisallowedCategory file.mimetype c.disallowedCategories = false ∧
        (allowedMimeTypesOf c = [] ∨
         (allowedMimeTypesOf c).any (mimeMatches file.mimetype) = true))) := by
  rw [validateFile_eq]
  split_ifs with h1 h2 h3 h4 h5
  · simp [h1]
  · simp only [Bool.not_eq_true] at h1
    rw [Bool.and_eq_true, List.isEmpty_iff, List.isEmpty_iff] at h2
    constructor
    · intro h
      have hb : b = true := by
        have h9 := h
        simp only [Except.ok.injEq] at h9
        exact h9.symm
      exact ⟨hb, h1, Or.inl ⟨h2.1, h2.2⟩⟩
    · rintro ⟨hb, -, -⟩
      subst hb
      rfl
  · have hne : c.disallowedTypes ≠ [] := by
      intro hnil
      rw [hnil] at h3
      exact Bool.false_ne_true h3
    simp [h3, hne]
  · rw [Bool.and_eq_true, List.isEmpty_iff, List.isEmpty_iff] at h2
    constructor
    · intro h
      exact absurd h (by simp)
    · rintro ⟨-, -, hd⟩
      rcases hd with ⟨ha, hb⟩ | ⟨-, hcat, -⟩
      · exact h2 ⟨ha, hb⟩
      · rw [h4] at hcat
        exact Bool.noConfusion hcat
  · rw [Bool.and_eq_true] at h5
    have hne : allowedMimeTypesOf c ≠ [] := by
      intro hnil
      have := h5.1
      rw [hnil] at this
      exact absurd this (by decide)
    have hany : (allowedMimeTypesOf c).any (mimeMatches file.mimetype) = false := by
      have := h5.2
      rwa [Bool.not_eq_true'] at this
    simp [hne, hany]
  · simp only [Bool.not_eq_true] at h1 h3 h4
    have hal : allowedMimeTypesOf c = [] ∨
        (allowedMimeTypesOf c).any (mimeMatches file.mimetype) = true := by
      cases ha : (allowedMimeTypesOf c).any (mimeMatches file.mimetype) with
      | true => exact Or.inr rfl
      | false =>
        left
        cases hl : allowedMimeTypesOf c with
        | nil => rfl
        | cons x xs =>
          exfalso
          apply h5
          rw [Bool.and_eq_true]
          constructor
          · rw [hl]; simp
          · rw [ha]; rfl
    constructor
    · intro h
      have hb : true = b := by simpa using h
      exact ⟨hb.symm, h1, Or.inr ⟨h3, h4, hal⟩⟩
    · rintro ⟨hb, -, -⟩
      subst hb
      rfl

/-- When `validateFile` succeeds, its payload is the source's
`return true`. -/
theorem validateFile_ok_true {file : FileDesc} {c : Constraints} {b : Bool}
    (h : validateFile file c = Except.ok b) : b = true :=
  (validateFile_ok_iff.mp h).1

theorem isDisallowedBy_nil (m : String) : isDisallowedBy m [] = false := rfl

theorem validateFile_error_iff {file : FileDesc} {c : Constraints} {e : ValidErr} :
    validateFile file c = Except.error e ↔
      (e = ValidErr.sizeExceeded ∧ sizeExceeds file c = true) ∨
      (e = ValidErr.typeDisallowed ∧ sizeExceeds file c = false ∧
        isDisallowedBy file.mimetype c.disallowedTypes = true) ∨
      (e = ValidErr.typeInDisallowedCategory ∧ sizeExceeds file c = false ∧
        isDisallowedBy file.mimetype c.disallowedTypes = false ∧
        inDisallowedCategory file.mimetype c.disallowedCategories = true ∧
        ¬(allowedMimeTypesOf c = [] ∧ c.disallowedTypes = [])) ∨
      (e = ValidErr.typeNotAllowed ∧ sizeExceeds file c = false ∧
        isDisallowedBy file.mimetype c.disallowedTypes = false ∧
        inDisallowedCategory file.mimetype c.disallowedCategories = false ∧
        allowedMimeTypesOf c ≠ [] ∧
        (allowedMimeTypesOf c).any (mimeMatches file.mimetype) = false) := by
  rw [validateFile_eq]
  split_ifs with h1 h2 h3 h4 h5
  · constructor
    · intro h
      have he : e = ValidErr.sizeExceeded := by
        have h9 := h
        simp only [Except.error.injEq] at h9
        exact h9.symm
      exact Or.inl ⟨he, h1⟩
    · rintro (⟨he, -⟩ | ⟨-, hs, -⟩ | ⟨-, hs, -, -, -⟩ | ⟨-, hs, -, -, -, -⟩)
      · subst he; rfl
      · rw [h1] at hs; exact Bool.noConfusion hs
      · rw [h1] at hs; exact Bool.noConfusion hs
      · rw [h1] at hs; exact Bool.noConfusion hs
  · simp only [Bool.not_eq_true] at h1
    rw [Bool.and_eq_true, List.isEmpty_iff, List.isEmpty_iff] at h2
    simp [h1, h2.1, h2.2, isDisallowedBy_nil]
  · simp only [Bool.not_eq_true] at h1
    constructor
    · intro h
      have he : e = ValidErr.typeDisallowed := by
        have h9 := h
        simp only [Except.error.injEq] at h9
        exact h9.symm
      exact Or.inr (Or.inl ⟨he, h1, h3⟩)
    · rintro (⟨-, hs⟩ | ⟨he, -⟩ | ⟨-, -, hdis, -, -⟩ | ⟨-, -, hdis, -, -, -⟩)
      · rw [h1] at hs; exact Bool.noConfusion hs
      · subst he; rfl
      · rw [h3] at hdis; exact Bool.noConfusion hdis
      · rw [h3] at hdis; exact Bool.noConfusion hdis
  · simp only [Bool.not_eq_true] at h1 h3
    rw [Bool.and_eq_true, List.isEmpty_iff, List.isEmpty_iff] at h2
    constructor
    · intro h
      have he : e = ValidErr.typeInDisallowedCategory := by
        have h9 := h
        simp only [Except.error.injEq] at h9
        exact h9.symm
      exact Or.inr (Or.inr (Or.inl ⟨he, h1, h3, h4, h2⟩))
    · rintro (⟨-, hs⟩ | ⟨-, -, hdis⟩ | ⟨he, -⟩ | ⟨-, -, -, hcatx, -, -⟩)
      · rw [h1] at hs; exact Bool.noConfusion hs
      · rw [h3] at hdis; exact Bool.noConfusion hdis
      · subst he; rfl
      · rw [h4] at hcatx; exact Bool.noConfusion hcatx
  · simp only [Bool.not_eq_true] at h1 h3 h4
    rw [Bool.and_eq_true] at h5
    have hne : allowedMimeTypesOf c ≠ [] := by
      intro hnil
      have h9 := h5.1
      rw [hnil] at h9
      exact absurd h9 (by decide)
    have hany : (allowedMimeTypesOf c).any (mimeMatches file.mimetype) = false := by
      have h9 := h5.2
      rwa [Bool.not_eq_true'] at h9
    simp [h1, h3, h4, hne, hany, eq_comm]
  · simp only [Bool.not_eq_true] at h1 h3 h4
    have hal : allowedMimeTypesOf c = [] ∨
        (allowedMimeTypesOf c).any (mimeMatches file.mimetype) = true := by
      cases ha : (allowedMimeTypesOf c).any (mimeMatches file.mimetype) with
      | true => exact Or.inr rfl
      | false =>
        left
        cases hl : allowedMimeTypesOf c with
        | nil => rfl
        | cons x xs =>
          exfalso
          apply h5
          rw [Bool.and_eq_true]
          constructor
          · rw [hl]; simp
          · rw [ha]; rfl
    constructor
    · intro h
      exact absurd h (by simp)
    · rintro (⟨-, hs⟩ | ⟨-, -, hdis⟩ | ⟨-, -, -, hcatx, -⟩ | ⟨-, -, -, -, hne, hany⟩)
      · rw [h1] at hs; exact Bool.noConfusion hs
      · rw [h3] at hdis; exact Bool.noConfusion hdis
      · rw [h4] at hcatx; exact Bool.noConfusion hcatx
      · rcases hal with hx | hx
        · exact hne hx
        · rw [hx] at hany; exact Bool.noConfusion hany

/-! ### Growing the constraint lists -/

/-- The constraint set with one more `disallowedTypes` entry, everything
else fixed. -/
def addDisallowedType (c : Constraints) (t : String) : Constraints :=
  ⟨c.maxSize, c.allowedTypes, c.disallowedTypes ++ [t], c.allowedCategories,
    c.disallowedCategories⟩

/-- The constraint set with one more `allowedTypes` entry, everything
else fixed. -/
def addAllowedType (c : Constraints) (t : String) : Constraints :=
  ⟨c.maxSize, c.allowedTypes ++ [t], c.disallowedTypes, c.allowedCategories,
    c.disallowedCategories⟩

theorem aml_addAllowed (c : Constraints) (t : String) :
    allowedMimeTypesOf (addAllowedType c t) =
      (c.allowedTypes ++ [t]) ++
        (if 0 < c.allowedCategories.length then expandCategories c.allowedCategories
         else []) := rfl

theorem aml_addAllowed_ne (c : Constraints) (t : String) :
    allowedMimeTypesOf (addAllowedType c t) ≠ [] := by
  rw [aml_addAllowed]
  simp

theorem mono_disallow (file : FileDesc) (c : Constraints) (t : String) (b : Bool)
    (h : validateFile file (addDisallowedType c t) = Except.ok b) :
    validateFile file c = Except.ok b := by
  rw [validateFile_ok_iff] at h ⊢
  obtain ⟨hb, hsz, hd⟩ := h
  refine ⟨hb, hsz, ?_⟩
  rcases hd with ⟨-, hdt⟩ | ⟨hdis, hcat, hal⟩
  · have h9 : c.disallowedTypes ++ [t] = [] := hdt
    simp at h9
  · refine Or.inr ⟨?_, hcat, hal⟩
    have hdis2 : isDisallowedBy file.mimetype (c.disallowedTypes ++ [t]) = false := hdis
    rw [isDisallowedBy, List.any_append, Bool.or_eq_false_iff] at hdis2
    exact hdis2.1

theorem mono_allow_ok (file : FileDesc) (c : Constraints) (t : String) (b : Bool)
    (hne : allowedMimeTypesOf c ≠ [])
    (h : validateFile file c = Except.ok b) :
    validateFile file (addAllowedType c t) = Except.ok b := by
  rw [validateFile_ok_iff] at h ⊢
  obtain ⟨hb, hsz, hd⟩ := h
  refine ⟨hb, hsz, ?_⟩
  rcases hd with ⟨ha, -⟩ | ⟨hdis, hcat, hal⟩
  · exact absurd ha hne
  · rcases hal with ha | hany
    · exact absurd ha hne
    · refine Or.inr ⟨hdis, hcat, Or.inr ?_⟩
      rw [aml_addAllowed, List.any_append, List.any_append]
      have heq2 : allowedMimeTypesOf c = c.allowedTypes ++
          (if 0 < c.allowedCategories.length then expandCategories c.allowedCategories
           else []) := rfl
      rw [heq2, List.any_append] at hany
      rw [Bool.or_eq_true] at hany
      rcases hany with h9 | h9
      · simp [h9]
      · simp [h9]

theorem mono_allow_error (file : FileDesc) (c : Constraints) (t : String) (e : ValidErr)
    (hnt : e ≠ ValidErr.typeNotAllowed)
    (h : validateFile file c = Except.error e) :
    validateFile file (addAllowedType c t) = Except.error e := by
  rw [validateFile_error_iff] at h ⊢
  rcases h with ⟨he, hs⟩ | ⟨he, hs, hd⟩ | ⟨he, hs, hd, hcat, -⟩ | ⟨he, -⟩
  · exact Or.inl ⟨he, hs⟩
  · exact Or.inr (Or.inl ⟨he, hs, hd⟩)
  · refine Or.inr (Or.inr (Or.inl ⟨he, hs, hd, hcat, ?_⟩))
    rintro ⟨ha, -⟩
    exact aml_addAllowed_ne c t ha
  · exact absurd he hnt

/-! ### Lemmas about the fan-out orchestration -/

theorem mapME_error_of_mem {α β ε : Type} (g : α → Except ε β) :
    ∀ (l : List α) (a : α), a ∈ l → (∃ e, g a = Except.error e) →
      ∃ e2, mapME g l = Except.error e2 := by
  intro l
  induction l with
  | nil => intro a ha _; simp at ha
  | cons x xs ih =>
    rintro a ha ⟨e, he⟩
    cases hx : g x with
    | error e0 => exact ⟨e0, by simp [mapME, hx]⟩
    | ok b =>
      rcases List.mem_cons.mp ha with h9 | hmem
      · subst h9
        rw [hx] at he
        exact absurd he (by simp)
      · rcases ih a hmem ⟨e, he⟩ with ⟨e2, h2⟩
        exact ⟨e2, by simp [mapME, hx, h2]⟩

theorem mapME_ok_map {α β ε : Type} (g : α → Except ε β) (hfun : α → β)
    (hg : ∀ a, g a = Except.ok (hfun a)) :
    ∀ l : List α, mapME g l = Except.ok (l.map hfun) := by
  intro l
  induction l with
  | nil => rfl
  | cons x xs ih => simp [mapME, hg x, ih]

theorem guardedDelete_eq_ok (delOutcome : String → Except String Unit) (u : String) :
    guardedDelete delOutcome u = Except.ok (outcomeLog delOutcome u) := by
  unfold guardedDelete outcomeLog
  cases delOutcome u with
  | ok v => rfl
  | error e => rfl

theorem collectRecordUrls_cons (f : String) (fs : List String)
    (record : String → FieldValue) :
    collectRecordUrls (f :: fs) record =
      fieldUrls (record f) ++ collectRecordUrls fs record := rfl

theorem mem_collectRecordUrls {fields : List String} {record : String → FieldValue}
    {u : String} :
    u ∈ collectRecordUrls fields record ↔ ∃ f ∈ fields, u ∈ fieldUrls (record f) := by
  induction fields with
  | nil => simp [collectRecordUrls]
  | cons f fs ih =>
    rw [collectRecordUrls_cons, List.mem_append, ih]
    simp [List.mem_cons]

theorem cleanupToDelete_cons (f : String) (fs : List String)
    (existing newm : String → FieldValue) :
    cleanupToDelete (f :: fs) existing newm =
      fieldToDelete (existing f) (newm f) ++ cleanupToDelete fs existing newm := rfl

/-! ### Entries that expand to nothing -/

/-- A `/*` wildcard entry whose stem begins no MIME type of the table:
not the catch-all, not a known category name, containing `/*`, and
with no table type starting with its stem followed by `/`. -/
def unknownWildcard (e : String) : Bool :=
  !(e == "*") && !(isKnownCategory e) && strIncludes e "/*" &&
    allCategoryTypes.all (fun t => !(strStartsWith t (strBefore e "/*" ++ "/")))

theorem entryExpansion_unknownWildcard {e : String} (h : unknownWildcard e = true) :
    entryExpansion e = [] := by
  unfold unknownWildcard at h
  rw [Bool.and_eq_true, Bool.and_eq_true, Bool.and_eq_true] at h
  obtain ⟨⟨⟨h1, h2⟩, h3⟩, h4⟩ := h
  rw [Bool.not_eq_true'] at h1 h2
  rw [beq_eq_false_iff_ne] at h1
  unfold entryExpansion
  rw [if_neg h1, h2]
  simp only [Bool.false_eq_true, if_false, h3, if_true]
  rw [List.filter_eq_nil_iff]
  intro t ht
  have h5 := List.all_eq_true.mp h4 t ht
  rw [Bool.not_eq_true'] at h5
  simp [h5]

/-! ### The claims -/

/-- Claim C1, counterexample: the claim says that with an empty combined
allow-list, empty `disallowedTypes`, no `maxSize` and a non-empty
`disallowedCategories`, a file whose MIME type is in the expansion of
`disallowedCategories` fails with `TypeDisallowed`.  On the code the
no-restriction short-circuit (`src/utils.js` line 116) fires first:
with `disallowedCategories = ["image"]` and the file `image/png`
(a member of the expansion), `validateFile` succeeds. -/
theorem C1_counterexample :
    "image/png" ∈ expandCategories ["image"] ∧
    validateFile ⟨"image/png", 100⟩ ⟨none, [], [], [], ["image"]⟩ = Except.ok true := by
  constructor
  · decide
  · decide

/-- Claim C1, amended: when the combined allow-list and the explicit
`disallowedTypes` are both empty and no `maxSize` is given, the
no-restriction short-circuit fires and `validateFile` succeeds for
every file — the disallowed-categories check is never reached, even
when the file's MIME type is a member of the expansion of a non-empty
`disallowedCategories`. -/
theorem C1_amended (file : FileDesc) (c : Constraints)
    (hms : c.maxSize = none)
    (hallow : allowedMimeTypesOf c = [])
    (hdt : c.disallowedTypes = []) :
    validateFile file c = Except.ok true := by
  rw [validateFile_ok_iff]
  refine ⟨rfl, ?_, Or.inl ⟨hallow, hdt⟩⟩
  unfold sizeExceeds
  rw [hms]

theorem C1_witness :
    validateFile ⟨"image/png", 123⟩ ⟨none, [], [], [], ["image"]⟩ = Except.ok true :=
  C1_amended ⟨"image/png", 123⟩ ⟨none, [], [], [], ["image"]⟩ rfl rfl rfl

/-- Claim C2: with `maxSize` given, `validateFile` fails with
`SizeExceeded` exactly when the file's size exceeds the parsed byte
value of `maxSize` (`parseSize` is modelled from the spec, its
definition not being under `src/`).  The spec's Scenarios A and B are
the witness below. -/
theorem C2_size_check (file : FileDesc) (c : Constraints) (ms : String)
    (h : c.maxSize = some ms) :
    validateFile file c = Except.error ValidErr.sizeExceeded ↔ parseSize ms < file.size := by
  have hse : sizeExceeds file c = decide (parseSize ms < file.size) := by
    unfold sizeExceeds
    rw [h]
  rw [validateFile_error_iff]
  constructor
  · rintro (⟨-, hs⟩ | ⟨he, -, -⟩ | ⟨he, -, -, -, -⟩ | ⟨he, -, -, -, -, -⟩)
    · rw [hse] at hs
      exact of_decide_eq_true hs
    · exact ValidErr.noConfusion he
    · exact ValidErr.noConfusion he
    · exact ValidErr.noConfusion he
  · intro hlt
    refine Or.inl ⟨rfl, ?_⟩
    rw [hse]
    exact decide_eq_true hlt

theorem C2_witness :
    validateFile ⟨"image/png", 2000000⟩ ⟨some "1MB", [], [], ["image"], []⟩ =
      Except.error ValidErr.sizeExceeded ∧
    validateFile ⟨"image/png", 500000⟩ ⟨some "1MB", [], [], ["image"], []⟩ =
      Except.ok true := by
  constructor
  · exact (C2_size_check ⟨"image/png", 2000000⟩ ⟨some "1MB", [], [], ["image"], []⟩
      "1MB" rfl).mpr (by decide)
  · decide

/-- Claim C3: a file whose MIME type matches an entry of
`disallowedTypes` (exact, `*/*`, or `stem/*`) fails with
`TypeDisallowed` — regardless of the allow-list, so an explicit block
wins over a broader allow (the size check, which runs first, is
assumed to pass). -/
theorem C3_disallow_wins (file : FileDesc) (c : Constraints)
    (hsz : sizeExceeds file c = false)
    (hdis : isDisallowedBy file.mimetype c.disallowedTypes = true) :
    validateFile file c = Except.error ValidErr.typeDisallowed := by
  rw [validateFile_error_iff]
  exact Or.inr (Or.inl ⟨rfl, hsz, hdis⟩)

theorem C3_witness :
    validateFile ⟨"image/gif", 100⟩ ⟨none, [], ["image/gif"], ["image"], []⟩ =
      Except.error ValidErr.typeDisallowed :=
  C3_disallow_wins ⟨"image/gif", 100⟩ ⟨none, [], ["image/gif"], ["image"], []⟩
    rfl (by decide)

/-- Claim C4, counterexample: the claim says adding an entry to
`allowedTypes` never turns a previously-passing file invalid.  When
the combined allow-list was empty (no-restriction short-circuit), the
first added entry disables the short-circuit: a `text/plain` file
passes under the empty constraint set but fails with `TypeNotAllowed`
once `allowedTypes = ["image/png"]`. -/
theorem C4_counterexample :
    validateFile ⟨"text/plain", 100⟩ ⟨none, [], [], [], []⟩ = Except.ok true ∧
    validateFile ⟨"text/plain", 100⟩ (addAllowedType ⟨none, [], [], [], []⟩ "image/png") =
      Except.error ValidErr.typeNotAllowed := by
  constructor
  · decide
  · decide

/-- Claim C4, amended: (1) adding an entry to `disallowedTypes` never
turns a failing file valid (a file valid afterwards was valid
before); (2) adding an entry to `allowedTypes` never turns a passing
file invalid **provided the combined allow-list was already
non-empty** (the counterexample shows the proviso is needed when it
was empty); (3) adding an entry to `allowedTypes` never converts a
failure other than `TypeNotAllowed` into success — such a file keeps
failing with the same error. -/
theorem C4_amended :
    (∀ (file : FileDesc) (c : Constraints) (t : String) (b : Bool),
      validateFile file (addDisallowedType c t) = Except.ok b →
      validateFile file c = Except.ok b) ∧
    (∀ (file : FileDesc) (c : Constraints) (t : String) (b : Bool),
      allowedMimeTypesOf c ≠ [] →
      validateFile file c = Except.ok b →
      validateFile file (addAllowedType c t) = Except.ok b) ∧
    (∀ (file : FileDesc) (c : Constraints) (t : String) (e : ValidErr),
      e ≠ ValidErr.typeNotAllowed →
      validateFile file c = Except.error e →
      validateFile file (addAllowedType c t) = Except.error e) :=
  ⟨mono_disallow, mono_allow_ok, mono_allow_error⟩

theorem C4_witness :
    validateFile ⟨"text/plain", 77⟩ ⟨none, [], [], [], []⟩ = Except.ok true :=
  C4_amended.1 ⟨"text/plain", 77⟩ ⟨none, [], [], [], []⟩ "image/png" true (by decide)

/-- Claim C5, counterexample: the claim says a category list containing
`*` expands to exactly the union of every category's MIME types.  An
unknown entry falls through to the literal-MIME-type branch and is
kept: `["foo/bar", "*"]` contains `*`, yet its expansion holds
`foo/bar`, which is in no category of the table. -/
theorem C5_counterexample :
    "foo/bar" ∈ expandCategories ["foo/bar", "*"] ∧
    "foo/bar" ∉ allCategoryTypes ∧
    expandCategories ["foo/bar", "*"] ≠ allCategoryTypes := by
  refine ⟨by decide, by decide, by decide⟩

/-- Claim C5, amended: for every category list containing `*` whose
entries all draw from the table (each is `*`, a known category name,
or a `/*` wildcard — no literal-MIME-type fallthrough), the expansion
has exactly the members of the union of every category's MIME types,
with no duplicates. -/
theorem C5_amended (l : List String) (hstar : "*" ∈ l)
    (h : ∀ e ∈ l, tableEntry e = true) :
    (∀ x, x ∈ expandCategories l ↔ x ∈ allCategoryTypes) ∧
    (expandCategories l).Nodup := by
  refine ⟨?_, nodup_expandCategories l⟩
  intro x
  rw [mem_expandCategories]
  constructor
  · rintro ⟨e, he, hx⟩
    exact entryExpansion_subset (h e he) x hx
  · intro hx
    refine ⟨"*", hstar, ?_⟩
    rw [entryExpansion_star]
    exact hx

theorem C5_witness :
    (∀ x, x ∈ expandCategories ["image", "*"] ↔ x ∈ allCategoryTypes) ∧
    (expandCategories ["image", "*"]).Nodup :=
  C5_amended ["image", "*"] (by decide) (by decide)

/-- Claim C9: a `/*` wildcard whose stem begins no MIME type of the
table contributes nothing to the expansion; a constraint set whose
only restriction is an `allowedCategories` list made of such entries
therefore has an empty combined allow-list, and `validateFile`
accepts every file through the no-restriction short-circuit. -/
theorem C9_unknown_wildcards (cats : List String)
    (h : ∀ e ∈ cats, unknownWildcard e = true) :
    expandCategories cats = [] ∧
    ∀ file : FileDesc, validateFile file ⟨none, [], [], cats, []⟩ = Except.ok true := by
  have hexp : expandCategories cats = [] := by
    rw [List.eq_nil_iff_forall_not_mem]
    intro a ha
    rw [mem_expandCategories] at ha
    obtain ⟨e, he, hae⟩ := ha
    rw [entryExpansion_unknownWildcard (h e he)] at hae
    simp at hae
  refine ⟨hexp, ?_⟩
  intro file
  rw [validateFile_ok_iff]
  refine ⟨rfl, rfl, Or.inl ⟨?_, rfl⟩⟩
  unfold allowedMimeTypesOf
  simp [hexp]

theorem C9_witness :
    expandCategories ["foo/*"] = [] ∧
    validateFile ⟨"application/pdf", 5⟩ ⟨none, [], [], ["foo/*"], []⟩ = Except.ok true := by
  have h9 := C9_unknown_wildcards ["foo/*"] (by decide)
  exact ⟨h9.1, h9.2 ⟨"application/pdf", 5⟩⟩

/-- Claim C6: `StorageService.upload` validates every input file before
any provider upload is dispatched — if some file of the call fails the
size or allowed-types validation, the whole call fails and the
provider's `upload` is invoked for no file (empty dispatch trace). -/
theorem C6_validate_before_dispatch {α : Type} (maxFileSize : Nat) (provUp : FileDesc → α)
    (files : List FileDesc) (allowedTypes : Option (List String)) (f : FileDesc) (e : String)
    (hf : f ∈ files)
    (hv : StorageService.validateFile maxFileSize allowedTypes f = Except.error e) :
    (∃ e2, (StorageService.upload maxFileSize provUp files allowedTypes).1 =
      Except.error e2) ∧
    (StorageService.upload maxFileSize provUp files allowedTypes).2 = [] := by
  obtain ⟨e2, h2⟩ := mapME_error_of_mem
    (StorageService.validateFile maxFileSize allowedTypes) files f hf ⟨e, hv⟩
  unfold StorageService.upload
  rw [h2]
  exact ⟨⟨e2, rfl⟩, rfl⟩

theorem C6_witness :
    (∃ e2, (StorageService.upload 100 (fun _ => (0 : Nat)) [⟨"text/plain", 500⟩] none).1 =
      Except.error e2) ∧
    (StorageService.upload 100 (fun _ => (0 : Nat)) [⟨"text/plain", 500⟩] none).2 = [] :=
  C6_validate_before_dispatch 100 (fun _ => (0 : Nat)) [⟨"text/plain", 500⟩] none
    ⟨"text/plain", 500⟩ "File too large" (by simp) rfl

/-- Claim C7: `ModelFileService.deleteFiles` issues one guarded delete
per non-empty URL under each configured field (the attempted list
holds exactly those URLs, one outcome entry each) and always resolves
with `ok` — individual delete rejections are caught and downgraded to
logged warnings for every outcome oracle, never propagated. -/
theorem C7_deleteFiles_best_effort (fields : List String) (record : String → FieldValue)
    (delOutcome : String → Except String Unit) :
    ModelFileService.deleteFiles fields record delOutcome =
      Except.ok ((collectRecordUrls fields record).map (outcomeLog delOutcome)) ∧
    (∀ u, u ∈ collectRecordUrls fields record ↔ ∃ f ∈ fields, u ∈ fieldUrls (record f)) := by
  constructor
  · exact mapME_ok_map (guardedDelete delOutcome) (outcomeLog delOutcome)
      (guardedDelete_eq_ok delOutcome) (collectRecordUrls fields record)
  · intro u
    exact mem_collectRecordUrls

/-- Claim C8: for a configured field present in both records as URL
arrays with no empty-string entry, `cleanupReplacedFiles` deletes
exactly the order-preserving set difference of the existing URLs
minus the new URLs; the spec's Scenario E is the witness below. -/
theorem C8_cleanup_diff (f : String) (es ns : List String)
    (existing newm : String → FieldValue)
    (he : existing f = FieldValue.many es) (hn : newm f = FieldValue.many ns)
    (h0 : "" ∉ es) :
    cleanupToDelete [f] existing newm = specSetDiff es ns ∧
    ∀ delOutcome, ModelFileService.cleanupReplacedFiles [f] existing newm delOutcome =
      Except.ok ((specSetDiff es ns).map (outcomeLog delOutcome)) := by
  have hd : cleanupToDelete [f] existing newm = specSetDiff es ns := by
    rw [cleanupToDelete_cons]
    have h9 : cleanupToDelete [] existing newm = [] := rfl
    rw [h9, List.append_nil]
    unfold fieldToDelete
    rw [he, hn]
    simp only [truthy, toListOf, Bool.and_self, if_true]
    unfold specSetDiff
    apply List.filter_congr
    intro u hu
    have hne : ¬(u = "") := fun hq => h0 (hq ▸ hu)
    have hb : (u == "") = false := beq_eq_false_iff_ne.mpr hne
    rw [hb]
    simp
  refine ⟨hd, ?_⟩
  intro delOutcome
  unfold ModelFileService.cleanupReplacedFiles
  rw [hd]
  exact mapME_ok_map (guardedDelete delOutcome) (outcomeLog delOutcome)
    (guardedDelete_eq_ok delOutcome) (specSetDiff es ns)

theorem C8_witness :
    cleanupToDelete ["avatar"]
      (fun _ => FieldValue.many ["url1", "url2"])
      (fun _ => FieldValue.many ["url2", "url3"]) = ["url1"] :=
  ((C8_cleanup_diff "avatar" ["url1", "url2"] ["url2", "url3"]
      (fun _ => FieldValue.many ["url1", "url2"])
      (fun _ => FieldValue.many ["url2", "url3"])
      rfl rfl (by decide)).1).trans (by decide)

/-- Claim C10: a configured field whose entry in the new-URLs mapping is
absent or falsy is skipped entirely by `cleanupReplacedFiles` — it
contributes no deletions (so removing such a field from the
configured list changes nothing), rather than the missing entry being
treated as an empty list, which would delete all of that field's
existing URLs. -/
theorem C10_skip_missing_field (fields : List String)
    (existing newm : String → FieldValue) (f : String)
    (h : truthy (newm f) = false) :
    fieldToDelete (existing f) (newm f) = [] ∧
    cleanupToDelete fields existing newm =
      cleanupToDelete (fields.filter (fun g => !(g == f))) existing newm := by
  have h1 : ∀ v : FieldValue, fieldToDelete v (newm f) = [] := by
    intro v
    unfold fieldToDelete
    rw [h, Bool.and_false]
    simp
  refine ⟨h1 (existing f), ?_⟩
  induction fields with
  | nil => rfl
  | cons g gs ih =>
    rw [cleanupToDelete_cons]
    cases hg : (g == f) with
    | true =>
      have hgf : g = f := by simpa using hg
      have hf : (f :: gs).filter (fun x => !(x == f)) = gs.filter (fun x => !(x == f)) := by
        rw [List.filter_cons]
        simp
      rw [hgf, h1 (existing f), List.nil_append, hf]
      exact ih
    | false =>
      have hf : (g :: gs).filter (fun x => !(x == f)) =
          g :: gs.filter (fun x => !(x == f)) := by
        rw [List.filter_cons, hg]
        simp
      rw [hf, cleanupToDelete_cons, ih]

theorem C10_witness :
    fieldToDelete (FieldValue.many ["u1"]) FieldValue.absent = [] ∧
    cleanupToDelete ["avatar"] (fun _ => FieldValue.many ["u1"]) (fun _ => FieldValue.absent) =
      cleanupToDelete (["avatar"].filter (fun g => !(g == "avatar")))
        (fun _ => FieldValue.many ["u1"]) (fun _ => FieldValue.absent) :=
  C10_skip_missing_field ["avatar"] (fun _ => FieldValue.many ["u1"])
    (fun _ => FieldValue.absent) "avatar" rfl

end SemantqStorage
